import Mathlib

/-!
Verification of the `memora-cv-create` PDF conversion service (`src/server.js`).

Strings are modelled as `List Char` (JavaScript strings are sequences of
characters; none of the inputs exercised here involve surrogate pairs).
The two HTTP handlers (`POST /prepare-pdf`, `GET /download/:id`) are embedded
as pure functions over an explicit store state; the external renderer
(`html-pdf`), the uuid generator and the JS engine's stringification of
inherited object properties are oracles supplied as parameters.
-/

/-- The characters matched by JavaScript's `\s` regular-expression class and
trimmed by `String.prototype.trim` (WhiteSpace and LineTerminator code points). -/
def jsWhitespaceList : List Char :=
  [' ', '\t', '\n', '\r', '\x0b', '\x0c', '\u00A0', '\u1680',
   '\u2000', '\u2001', '\u2002', '\u2003', '\u2004', '\u2005', '\u2006',
   '\u2007', '\u2008', '\u2009', '\u200A', '\u2028', '\u2029', '\u202F',
   '\u205F', '\u3000', '\uFEFF']

/-- Whether `c` is JavaScript whitespace (membership in `jsWhitespaceList`). -/
def isJsSpace (c : Char) : Bool := List.elem c jsWhitespaceList

/-- The character class kept by the sanitizer on line 66 of `server.js`
(`.replace(/[^a-zA-Z0-9_-]/g, '')` deletes everything else). -/
def isAllowedChar (c : Char) : Bool := c.isAlphanum || c == '_' || c == '-'

/-- `String.prototype.trim`: drop JS whitespace from both ends. -/
def jsTrim (l : List Char) : List Char :=
  ((l.dropWhile isJsSpace).reverse.dropWhile isJsSpace).reverse

/-- Helper for `collapseWs`: the boolean records whether we are inside a
whitespace run whose single replacement underscore was already emitted. -/
def collapseWsAux : Bool → List Char → List Char
  | _, [] => []
  | inRun, c :: cs =>
    if isJsSpace c then
      if inRun then collapseWsAux true cs
      else '_' :: collapseWsAux true cs
    else c :: collapseWsAux false cs

/-- `.replace(/\s+/g, '_')` (line 65 of `server.js`): every maximal run of
whitespace characters is replaced by a single underscore. -/
def collapseWs (l : List Char) : List Char := collapseWsAux false l

/-- The sanitization pipeline applied to a non-blank `personName`
(lines 64-67 of `server.js`): trim, collapse whitespace runs to `_`,
strip characters outside `[a-zA-Z0-9_-]`, truncate to 50 characters
(`.substring(0, 50)`). -/
def sanitizeName (s : List Char) : List Char :=
  ((collapseWs (jsTrim s)).filter isAllowedChar).take 50

/-- `baseName` (lines 61-68 of `server.js`): the sanitized `personName` when it
is present and non-blank, otherwise the fixed default `"CV"`. -/
def baseName (personName : Option (List Char)) : List Char :=
  match personName with
  | some s => if jsTrim s = [] then "CV".toList else sanitizeName s
  | none => "CV".toList

/-- `templateName` (line 55 of `server.js`): `req.query.template || 'classic'`.
An absent query parameter is `undefined` and the empty string is falsy, so both
default to `"classic"`. -/
def templateName (q : Option (List Char)) : List Char :=
  match q with
  | none => "classic".toList
  | some t => if t = [] then "classic".toList else t

/-- `templateSuffix` (line 70 of `server.js`):
`templateName.charAt(0).toUpperCase() + templateName.slice(1)`.
`Char.toUpper` models `toUpperCase` on the ASCII range, which covers every
input exercised in this development. -/
def templateSuffix (t : List Char) : List Char :=
  match t with
  | [] => []
  | c :: cs => c.toUpper :: cs

/-- `uniqueId` (line 71 of `server.js`): `uuidv4().substring(0, 8)`, with the
freshly generated uuid supplied as the argument. -/
def uniqueId (uuid : List Char) : List Char := uuid.take 8

/-- `filename` (line 74 of `server.js`):
`` `${baseName}_${templateSuffix}_${uniqueId}.pdf` ``. -/
def filename (personName templateQ : Option (List Char)) (uuid : List Char) :
    List Char :=
  baseName personName ++
    '_' :: (templateSuffix (templateName templateQ) ++
      '_' :: (uniqueId uuid ++ ".pdf".toList))

/-- The `'classic'` entry of `TEMPLATE_STYLES` (lines 19-23 of `server.js`). -/
def classicStyle : List Char :=
  ("\n        /* Classic Styles */\n        .template-classic .resume h1\x7bfont-family: \"Georgia\", \"Times New Roman\", serif;\x7d\n        .template-classic .resume h2\x7bfont-family: \"Georgia\", \"Times New Roman\", serif;\x7d\n    ").toList

/-- The `'modern'` entry of `TEMPLATE_STYLES` (lines 24-32 of `server.js`). -/
def modernStyle : List Char :=
  ("\n        /* Modern Styles */\n        .template-modern .resume h1\x7bletter-spacing:.3px;\x7d\n        .template-modern .resume .section h2\x7bborder-bottom:2px solid #111827;\x7d\n        .template-modern .resume .item .top\x7bcolor:#0f172a;\x7d\n        /* FIX: Increased top padding significantly to 25mm to ensure the header clears the accent bar and top page margin */\n        .template-modern .resume \x7bpadding-top: 25mm !important;\x7d \n        .template-modern .accent\x7bheight:6px; background:#111827; margin:-22mm -22mm 16px; border-radius:10px 10px 0 0;\x7d\n    ").toList

/-- The `'minimal'` entry of `TEMPLATE_STYLES` (lines 33-37 of `server.js`). -/
def minimalStyle : List Char :=
  ("\n        /* Minimal Styles */\n        /* FIX: Changed transparent background to a solid light grey (#f3f4f6) to ensure it renders in the PDF */\n        .template-minimal .resume .section h2\x7bborder:none; background:#f3f4f6; padding:6px 8px; border-radius:6px;\x7d\n    ").toList

/-- The own properties of the `TEMPLATE_STYLES` object literal
(lines 18-39 of `server.js`). -/
def TEMPLATE_STYLES (name : List Char) : Option (List Char) :=
  if name = "classic".toList then some classicStyle
  else if name = "modern".toList then some modernStyle
  else if name = "minimal".toList then some minimalStyle
  else none

/-- Property names every plain JavaScript object literal inherits from
`Object.prototype`; a bracket lookup `TEMPLATE_STYLES[k]` for such a `k`
resolves along the prototype chain to a truthy non-string value
(a built-in function, or `Object.prototype` itself for `__proto__`). -/
def objectProtoProps : List (List Char) :=
  ["constructor".toList, "hasOwnProperty".toList, "isPrototypeOf".toList,
   "propertyIsEnumerable".toList, "toLocaleString".toList, "toString".toList,
   "valueOf".toList, "__proto__".toList, "__defineGetter__".toList,
   "__defineSetter__".toList, "__lookupGetter__".toList,
   "__lookupSetter__".toList]

/-- The JavaScript value of `TEMPLATE_STYLES[templateName] || ''`
(line 78 of `server.js`): either a string, or a truthy non-string value
inherited from `Object.prototype`. -/
inductive JsStyleVal where
  | str : List Char → JsStyleVal
  | protoVal : List Char → JsStyleVal
deriving DecidableEq

/-- `styleSnippet` (line 78 of `server.js`): bracket lookup on the
`TEMPLATE_STYLES` object literal followed by `|| ''`.  An own property yields
its string; otherwise the lookup continues along the prototype chain, so a
name inherited from `Object.prototype` yields that truthy inherited value
(which `|| ''` keeps); any other name yields `undefined`, which `|| ''` turns
into the empty string. -/
def styleSnippet (name : List Char) : JsStyleVal :=
  match TEMPLATE_STYLES name with
  | some s => .str s
  | none =>
    if objectProtoProps.contains name then .protoVal name else .str []

/-- JavaScript truthiness of the `styleSnippet` value as tested by
`if (styleSnippet)` on line 82: a string is truthy iff non-empty; inherited
functions/objects are always truthy. -/
def JsStyleVal.truthy : JsStyleVal → Bool
  | .str s => !s.isEmpty
  | .protoVal _ => true

/-- Stringification of the `styleSnippet` value inside the template literal
`` `${styleSnippet}` `` on line 83: strings interpolate as themselves; the
engine-defined text of an inherited `Object.prototype` value is supplied by
the oracle `protoStr`. -/
def JsStyleVal.interp (protoStr : List Char → List Char) :
    JsStyleVal → List Char
  | .str s => s
  | .protoVal n => protoStr n

/-- `styleTag` (line 83 of `server.js`):
`` `<style id="template-injection">${styleSnippet}</style>` ``. -/
def styleTag (snippetText : List Char) : List Char :=
  "<style id=\"template-injection\">".toList ++ snippetText ++
    "</style>".toList

/-- `String.prototype.replace` with a plain-string pattern: replace the first
occurrence of `pat` by `rep`; when `pat` does not occur, return the string
unchanged (an empty pattern matches at position 0). -/
def replaceFirst (pat rep : List Char) : List Char → List Char
  | [] => if pat = [] then rep else []
  | c :: cs =>
    if (c :: cs).take pat.length = pat then rep ++ (c :: cs).drop pat.length
    else c :: replaceFirst pat rep cs

/-- A protoStr oracle used by concrete witnesses (its value never matters to
the statements it appears in). -/
def noProto : List Char → List Char := fun _ => []

/-- `finalHtml` (lines 81-86 of `server.js`): when the `styleSnippet` value is
truthy, splice `` `${styleTag}\n</head>` `` in place of the first `</head>`;
otherwise pass the markup through unchanged. -/
def finalHtml (protoStr : List Char → List Char) (templateQ : Option (List Char))
    (html : List Char) : List Char :=
  let v := styleSnippet (templateName templateQ)
  if v.truthy then
    replaceFirst "</head>".toList
      (styleTag (v.interp protoStr) ++ '\n' :: "</head>".toList) html
  else html

/-- The in-memory `pdfStore` (line 11 of `server.js`): a JavaScript `Map`
modelled as an association list with unique keys maintained by `mapSet`. -/
abbrev Store (α : Type) := List (List Char × α)

/-- `Map.prototype.get`: the value stored under `id`, if any. -/
def mapGet {α : Type} : Store α → List Char → Option α
  | [], _ => none
  | (k, v) :: rest, id => if k = id then some v else mapGet rest id

/-- `Map.prototype.set`: overwrite the entry under `id` when present,
otherwise append a new entry. -/
def mapSet {α : Type} : Store α → List Char → α → Store α
  | [], id, v => [(id, v)]
  | (k, w) :: rest, id, v =>
    if k = id then (id, v) :: rest else (k, w) :: mapSet rest id v

/-- `Map.prototype.delete`: remove the entry under `id`; removing an absent
key is a silent no-op (the ignored boolean result is not modelled).  Every
entry carrying the key is removed, which on the duplicate-free lists `mapSet`
builds coincides with removing the unique entry of a JavaScript `Map`. -/
def mapDelete {α : Type} : Store α → List Char → Store α
  | [], _ => []
  | (k, w) :: rest, id =>
    if k = id then mapDelete rest id else (k, w) :: mapDelete rest id

/-- A stored artifact: `{ buffer, filename }` (line 103 of `server.js`). -/
structure Artifact (α : Type) where
  buffer : α
  filename : List Char
deriving DecidableEq

/-- Outcome of `GET /download/:id`: `404` or the attachment response. -/
inductive DownloadResult (α : Type) where
  | notFound
  | ok : α → List Char → DownloadResult α
deriving DecidableEq

/-- The `GET /download/:id` handler (lines 115-128 of `server.js`): look the
id up; on a miss answer 404; on a hit send the buffer with the stored filename
and delete the entry. -/
def download {α : Type} (store : Store (Artifact α)) (id : List Char) :
    DownloadResult α × Store (Artifact α) :=
  match mapGet store id with
  | none => (.notFound, store)
  | some a => (.ok a.buffer a.filename, mapDelete store id)

/-- The fixed page-layout configuration passed to `pdf.create`
(lines 91-96 of `server.js`). -/
structure RenderOptions where
  format : List Char
  border : List Char
  quality : Nat
  timeout : Nat
deriving DecidableEq

/-- The options literal of lines 92-95: A4, 15mm border, quality 100,
30-second timeout. -/
def pdfOptions : RenderOptions := ⟨"A4".toList, "15mm".toList, 100, 30000⟩

/-- The oracles a single `/prepare-pdf` request consumes: the two `uuidv4()`
calls (lines 71 and 88), the external renderer (`none` models the error or
timeout branch of `toBuffer`), and the engine stringification of inherited
`Object.prototype` values. -/
structure Env (α : Type) where
  uuidForName : List Char
  uuidForId : List Char
  render : List Char → RenderOptions → Option α
  protoStr : List Char → List Char

/-- A `/prepare-pdf` request: JSON body fields `html` and `personName`,
query parameter `template`. -/
structure PrepareRequest where
  html : Option (List Char)
  personName : Option (List Char)
  template : Option (List Char)

/-- Outcome of `POST /prepare-pdf`: 400 (`Missing html in request body`),
500 (`Failed to create PDF ...`), or 200 with `{id, downloadUrl, filename}`. -/
inductive PrepareResult where
  | invalidRequest
  | renderFailure
  | success : List Char → List Char → List Char → PrepareResult
deriving DecidableEq

/-- The `POST /prepare-pdf` handler (lines 43-112 of `server.js`) as a pure
function from the request, the oracles and the current store to the response
and the new store.  `if (!html)` rejects an absent or empty `html` field;
on renderer failure nothing is stored; on success the artifact is stored
under a fresh uuid and `{id, downloadUrl, filename}` is returned. -/
def preparePdf {α : Type} (env : Env α) (store : Store (Artifact α))
    (req : PrepareRequest) : PrepareResult × Store (Artifact α) :=
  match req.html with
  | none => (.invalidRequest, store)
  | some h =>
    if h = [] then (.invalidRequest, store)
    else
      let fname := filename req.personName req.template env.uuidForName
      let fh := finalHtml env.protoStr req.template h
      let id := env.uuidForId
      match env.render fh pdfOptions with
      | none => (.renderFailure, store)
      | some buf =>
        (.success id ("/download/".toList ++ id) fname,
          mapSet store id ⟨buf, fname⟩)

/-- The store TTL (line 106 of `server.js`): `10 * 60 * 1000` milliseconds. -/
def TTL_MS : Nat := 10 * 60 * 1000

/-- State of the timed store: the `pdfStore` map together with the deadlines
of the pending `setTimeout(() => pdfStore.delete(id), TTL)` callbacks
scheduled on line 106 of `server.js`. -/
structure SState (α : Type) where
  store : Store α
  timers : List (List Char × Nat)
deriving DecidableEq

/-- Observable events of the timed store: a `put` (lines 103-106: `set` plus
timer scheduling), a `take` (the `/download` handler's lookup-and-delete), and
the firing of a pending expiry timer. -/
inductive Evt (α : Type) where
  | putE : List Char → α → Evt α
  | takeE : List Char → Evt α
  | fireE : List Char → Evt α
deriving DecidableEq

/-- One step of the timed store at wall-clock time `t` (first component of
the event).  `put` stores the value and schedules a deletion timer with
deadline `t + TTL_MS`; `take` deletes on a hit and leaves the state unchanged
on a miss; `fire` is the runtime invoking a pending timer callback
(`pdfStore.delete(id)`), which `setTimeout` does no earlier than the
timer's deadline. -/
inductive Step {α : Type} : Nat × Evt α → SState α → SState α → Prop where
  | put (t : Nat) (id : List Char) (v : α) (s : SState α) :
      Step (t, .putE id v) s
        ⟨mapSet s.store id v, (id, t + TTL_MS) :: s.timers⟩
  | takeHit (t : Nat) (id : List Char) (v : α) (s : SState α)
      (h : mapGet s.store id = some v) :
      Step (t, .takeE id) s ⟨mapDelete s.store id, s.timers⟩
  | takeMiss (t : Nat) (id : List Char) (s : SState α)
      (h : mapGet s.store id = none) :
      Step (t, .takeE id) s s
  | fire (t : Nat) (id : List Char) (ft : Nat) (s : SState α)
      (hmem : (id, ft) ∈ s.timers) (hdue : ft ≤ t) :
      Step (t, .fireE id) s ⟨mapDelete s.store id, s.timers.erase (id, ft)⟩

/-- Reachability along a list of timed events. -/
inductive Reach {α : Type} : SState α → List (Nat × Evt α) → SState α → Prop
  where
  | nil (s : SState α) : Reach s [] s
  | cons (e : Nat × Evt α) (s s' : SState α) (tr : List (Nat × Evt α))
      (s'' : SState α) (h1 : Step e s s') (h2 : Reach s' tr s'') :
      Reach s (e :: tr) s''

/-- `Map.get` after `Map.set` of the same key. -/
theorem mapGet_mapSet_self {α : Type} (s : Store α) (id : List Char) (v : α) :
    mapGet (mapSet s id v) id = some v := by
  induction s with
  | nil => simp [mapSet, mapGet]
  | cons p rest ih =>
    obtain ⟨k, w⟩ := p
    by_cases h : k = id <;> simp [mapSet, mapGet, h, ih]

/-- `Map.get` after `Map.set` of a different key. -/
theorem mapGet_mapSet_ne {α : Type} (s : Store α) (id id' : List Char) (v : α)
    (h : id ≠ id') : mapGet (mapSet s id v) id' = mapGet s id' := by
  induction s with
  | nil => simp [mapSet, mapGet, h]
  | cons p rest ih =>
    obtain ⟨k, w⟩ := p
    by_cases hk : k = id
    · subst hk; simp [mapSet, mapGet, h]
    · simp [mapSet, mapGet, hk, ih]

/-- `Map.get` after `Map.delete` of the same key. -/
theorem mapGet_mapDelete_self {α : Type} (s : Store α) (id : List Char) :
    mapGet (mapDelete s id) id = none := by
  induction s with
  | nil => simp [mapDelete, mapGet]
  | cons p rest ih =>
    obtain ⟨k, w⟩ := p
    by_cases h : k = id <;> simp [mapDelete, mapGet, h, ih]

/-- `Map.get` after `Map.delete` of a different key. -/
theorem mapGet_mapDelete_ne {α : Type} (s : Store α) (id id' : List Char)
    (h : id ≠ id') : mapGet (mapDelete s id) id' = mapGet s id' := by
  induction s with
  | nil => simp [mapDelete, mapGet]
  | cons p rest ih =>
    obtain ⟨k, w⟩ := p
    by_cases hk : k = id
    · subst hk; simp [mapDelete, mapGet, h, ih]
    · simp [mapDelete, mapGet, hk, ih]

/-- Deleting a key that is not in the map leaves it unchanged
(`Map.delete` on an absent key is a no-op). -/
theorem mapDelete_of_mapGet_none {α : Type} (s : Store α) (id : List Char)
    (h : mapGet s id = none) : mapDelete s id = s := by
  induction s with
  | nil => rfl
  | cons p rest ih =>
    obtain ⟨k, w⟩ := p
    by_cases hk : k = id
    · simp [mapGet, hk] at h
    · simp [mapGet, hk] at h
      simp [mapDelete, hk, ih h]

/-- Every character of a sanitized name lies in `[a-zA-Z0-9_-]`. -/
theorem sanitizeName_mem_allowed (x : List Char) (c : Char)
    (hc : c ∈ sanitizeName x) : isAllowedChar c = true := by
  have h1 : c ∈ (collapseWs (jsTrim x)).filter isAllowedChar :=
    List.mem_of_mem_take hc
  exact (List.mem_filter.mp h1).2

/-- A character in `[a-zA-Z0-9_-]` is not JavaScript whitespace. -/
theorem allowed_not_space (c : Char) (h : isAllowedChar c = true) :
    isJsSpace c = false := by
  cases hsp : isJsSpace c
  · rfl
  · exfalso
    have hmem : c ∈ jsWhitespaceList := List.mem_of_elem_eq_true hsp
    have hall : ∀ x ∈ jsWhitespaceList, isAllowedChar x = false := by decide
    rw [hall c hmem] at h
    exact Bool.false_ne_true h

/-- `dropWhile` is the identity on a list none of whose elements satisfy the
predicate. -/
theorem dropWhile_eq_self_of_all {α : Type} (p : α → Bool) (l : List α)
    (h : ∀ c ∈ l, p c = false) : l.dropWhile p = l := by
  cases l with
  | nil => rfl
  | cons c cs =>
    rw [List.dropWhile_cons, if_neg]
    simp [h c (List.mem_cons_self c cs)]

/-- `jsTrim` is the identity on a list with no whitespace characters. -/
theorem jsTrim_eq_self_of_no_space (l : List Char)
    (h : ∀ c ∈ l, isJsSpace c = false) : jsTrim l = l := by
  unfold jsTrim
  rw [dropWhile_eq_self_of_all _ _ h,
    dropWhile_eq_self_of_all _ _ (fun c hc => h c (List.mem_reverse.mp hc)),
    List.reverse_reverse]

/-- `collapseWsAux` is the identity on a list with no whitespace characters. -/
theorem collapseWsAux_eq_self_of_no_space (l : List Char)
    (h : ∀ c ∈ l, isJsSpace c = false) : ∀ b, collapseWsAux b l = l := by
  induction l with
  | nil => intro b; rfl
  | cons c cs ih =>
    intro b
    rw [collapseWsAux, if_neg]
    · rw [ih (fun d hd => h d (List.mem_cons_of_mem c hd)) false]
    · simp [h c (List.mem_cons_self c cs)]

/-- Claim C9: the filename sanitization pipeline (trim, collapse whitespace
runs to underscores, strip characters outside `[A-Za-z0-9_-]`, truncate to 50)
is idempotent: `sanitize(sanitize(x)) = sanitize(x)` for every input string. -/
theorem spec_c9 (x : List Char) :
    sanitizeName (sanitizeName x) = sanitizeName x := by
  have hallow : ∀ c ∈ sanitizeName x, isAllowedChar c = true :=
    sanitizeName_mem_allowed x
  have hnosp : ∀ c ∈ sanitizeName x, isJsSpace c = false :=
    fun c hc => allowed_not_space c (hallow c hc)
  have hlen : (sanitizeName x).length ≤ 50 := by
    unfold sanitizeName
    simp [Nat.min_le_left 50
      ((collapseWs (jsTrim x)).filter isAllowedChar).length]
  conv_lhs => rw [sanitizeName]
  rw [jsTrim_eq_self_of_no_space _ hnosp]
  rw [show collapseWs (sanitizeName x) = sanitizeName x from
    collapseWsAux_eq_self_of_no_space _ hnosp false]
  rw [List.filter_eq_self.mpr hallow]
  exact List.take_of_length_le hlen

/-- `replaceFirst` on a string split as `pre ++ pat ++ post`, where no
occurrence of `pat` starts inside `pre`: exactly the occurrence after `pre`
is replaced. -/
theorem replaceFirst_first_occurrence (pat rep pre post : List Char)
    (hpat : pat ≠ [])
    (hfirst : ∀ i < pre.length,
      ((pre ++ pat ++ post).drop i).take pat.length ≠ pat) :
    replaceFirst pat rep (pre ++ pat ++ post) = pre ++ rep ++ post := by
  induction pre with
  | nil =>
    obtain ⟨p, ps, rfl⟩ : ∃ p ps, pat = p :: ps := by
      cases pat with
      | nil => exact absurd rfl hpat
      | cons p ps => exact ⟨p, ps, rfl⟩
    rw [List.nil_append, List.nil_append, List.cons_append, replaceFirst,
      if_pos (by rw [← List.cons_append, List.take_left]),
      ← List.cons_append, List.drop_left]
  | cons a pre' ih =>
    have h0 := hfirst 0 (by simp)
    simp only [List.cons_append, List.drop_zero] at h0 ⊢
    rw [replaceFirst, if_neg h0]
    rw [ih (fun i hi => by
      have hs := hfirst (i + 1) (by simpa using Nat.succ_lt_succ hi)
      simpa using hs)]

/-- `replaceFirst` is the identity when no occurrence of the (non-empty)
pattern starts anywhere in the string. -/
theorem replaceFirst_of_no_occurrence (pat rep s : List Char) (hpat : pat ≠ [])
    (h : ∀ i ≤ s.length, (s.drop i).take pat.length ≠ pat) :
    replaceFirst pat rep s = s := by
  induction s with
  | nil => simp [replaceFirst, hpat]
  | cons c cs ih =>
    rw [replaceFirst, if_neg (by simpa using h 0 (Nat.zero_le _))]
    rw [ih (fun i hi => by
      simpa using h (i + 1) (by simpa using Nat.succ_le_succ hi))]

/-- Each of the three enumerated style snippets is a non-empty string. -/
theorem TEMPLATE_STYLES_ne_nil (name snip : List Char)
    (h : TEMPLATE_STYLES name = some snip) : snip ≠ [] := by
  unfold TEMPLATE_STYLES at h
  split at h
  · injection h with h; subst h; decide
  · split at h
    · injection h with h; subst h; decide
    · split at h
      · injection h with h; subst h; decide
      · cases h

/-- When the effective template name owns a snippet in `TEMPLATE_STYLES`,
`finalHtml` is exactly the first-occurrence splice of
`` `${styleTag}\n</head>` `` for `</head>`. -/
theorem finalHtml_inject (protoStr : List Char → List Char)
    (tq : Option (List Char)) (snip : List Char)
    (hsnip : TEMPLATE_STYLES (templateName tq) = some snip)
    (html : List Char) :
    finalHtml protoStr tq html =
      replaceFirst "</head>".toList
        (styleTag snip ++ '\n' :: "</head>".toList) html := by
  have hne : snip ≠ [] := TEMPLATE_STYLES_ne_nil _ _ hsnip
  have htr : (JsStyleVal.str snip).truthy = true := by
    simp [JsStyleVal.truthy, hne]
  simp only [finalHtml, styleSnippet, hsnip, htr, if_true, JsStyleVal.interp]

/-- Claim C6: for every document and every template kind owning a style
snippet, the snippet (wrapped in its style tag, followed by a newline) is
inserted immediately before the first occurrence of `</head>`; and a document
containing no `</head>` marker is passed to the renderer unmodified, with no
error raised. -/
theorem spec_c6 (protoStr : List Char → List Char) (tq : Option (List Char))
    (snip : List Char) (pre post doc2 : List Char)
    (hsnip : TEMPLATE_STYLES (templateName tq) = some snip)
    (hfirst : ∀ i < pre.length,
      ((pre ++ "</head>".toList ++ post).drop i).take
        ("</head>".toList).length ≠ "</head>".toList)
    (hnomark : ∀ i ≤ doc2.length,
      (doc2.drop i).take ("</head>".toList).length ≠ "</head>".toList) :
    finalHtml protoStr tq (pre ++ "</head>".toList ++ post) =
      pre ++ (styleTag snip ++ '\n' :: "</head>".toList) ++ post ∧
    finalHtml protoStr tq doc2 = doc2 := by
  constructor
  · rw [finalHtml_inject protoStr tq snip hsnip]
    exact replaceFirst_first_occurrence _ _ _ _ (by decide) hfirst
  · rw [finalHtml_inject protoStr tq snip hsnip]
    exact replaceFirst_of_no_occurrence _ _ _ (by decide) hnomark

set_option maxRecDepth 100000 in
/-- Witness for C6 at a concrete document, template `modern`, and a concrete
marker-free document. -/
theorem spec_c6_witness :
    finalHtml noProto (some "modern".toList)
        ("<html><head>".toList ++ "</head>".toList ++
          "<body></body></html>".toList) =
      "<html><head>".toList ++
        (styleTag modernStyle ++ '\n' :: "</head>".toList) ++
        "<body></body></html>".toList ∧
    finalHtml noProto (some "modern".toList) "<p>hello</p>".toList =
      "<p>hello</p>".toList :=
  spec_c6 noProto (some "modern".toList) modernStyle "<html><head>".toList
    "<body></body></html>".toList "<p>hello</p>".toList (by decide)
    (by decide) (by decide)

set_option maxRecDepth 100000 in
/-- Claim C7: with `personName = "Jane  Doe!!"` and `template = "modern"`, the
derived base is `Jane_Doe` (trimmed, the double space collapsed to one
underscore, the punctuation stripped) and the full filename is
`Jane_Doe_Modern_<8-char-suffix>.pdf`, where the suffix is the first 8
characters of the fresh uuid; a blank or absent hint falls back to the fixed
default base `CV`. -/
theorem spec_c7 (uuid : List Char) (h8 : 8 ≤ uuid.length) :
    filename (some "Jane  Doe!!".toList) (some "modern".toList) uuid =
      "Jane_Doe_Modern_".toList ++ (uuid.take 8 ++ ".pdf".toList) ∧
    (uniqueId uuid).length = 8 ∧
    baseName (some "Jane  Doe!!".toList) = "Jane_Doe".toList ∧
    baseName none = "CV".toList ∧
    baseName (some "   ".toList) = "CV".toList := by
  refine ⟨rfl, ?_, by decide, by decide, by decide⟩
  simp [uniqueId, List.length_take, Nat.min_eq_left h8]

set_option maxRecDepth 100000 in
/-- Witness for C7 at a concrete 36-character uuid. -/
theorem spec_c7_witness :
    filename (some "Jane  Doe!!".toList) (some "modern".toList)
        "deadbeef-1234-4abc-8def-000000000000".toList =
      "Jane_Doe_Modern_".toList ++
        ("deadbeef-1234-4abc-8def-000000000000".toList.take 8 ++
          ".pdf".toList) ∧
    (uniqueId "deadbeef-1234-4abc-8def-000000000000".toList).length = 8 ∧
    baseName (some "Jane  Doe!!".toList) = "Jane_Doe".toList ∧
    baseName none = "CV".toList ∧
    baseName (some "   ".toList) = "CV".toList :=
  spec_c7 "deadbeef-1234-4abc-8def-000000000000".toList (by decide)

set_option maxRecDepth 100000 in
/-- Claim C2 is violated by the code (code bug): the template segment of the
filename is taken from the raw `template` query parameter without any
sanitization, so a caller-supplied template kind such as `"a b!"` places a
space and an exclamation mark - characters outside `[A-Za-z0-9_-]` - into the
suggested filename (which is also interpolated unescaped into the
`Content-Disposition` header). -/
theorem spec_c2 :
    filename none (some "a b!".toList)
        "deadbeef-1234-4abc-8def-000000000000".toList =
      "CV_A b!_deadbeef.pdf".toList ∧
    ("CV_A b!_deadbeef.pdf".toList.filter
      (fun c => !(isAllowedChar c || c == '.'))) = " !".toList := by
  constructor
  · rfl
  · decide

set_option maxRecDepth 100000 in
/-- Claim C8 is violated by the code (code bug): `TEMPLATE_STYLES[templateName]`
is a bracket lookup on a plain object literal and therefore consults the
prototype chain, so the non-enumerated template kind `"constructor"` resolves
to the truthy inherited `Object.prototype.constructor` rather than
`undefined`: a style tag containing its stringification is injected and the
document is not passed to the renderer unmodified - whatever text `protoStr`
says the engine stringifies the inherited value to. -/
theorem spec_c8 (protoStr : List Char → List Char) :
    finalHtml protoStr (some "constructor".toList)
        ("<html><head>".toList ++ "</head>".toList ++
          "<body>ok</body></html>".toList) ≠
      "<html><head>".toList ++ "</head>".toList ++
        "<body>ok</body></html>".toList := by
  have hsnip : styleSnippet (templateName (some "constructor".toList)) =
      .protoVal "constructor".toList := by decide
  have hform : finalHtml protoStr (some "constructor".toList)
      ("<html><head>".toList ++ "</head>".toList ++
        "<body>ok</body></html>".toList) =
      replaceFirst "</head>".toList
        (styleTag (protoStr "constructor".toList) ++ '\n' :: "</head>".toList)
        ("<html><head>".toList ++ "</head>".toList ++
          "<body>ok</body></html>".toList) := by
    simp only [finalHtml, hsnip, JsStyleVal.truthy, JsStyleVal.interp, if_true]
  intro heq
  rw [hform, replaceFirst_first_occurrence _ _ _ _ (by decide) (by decide)]
    at heq
  have h2 : styleTag (protoStr "constructor".toList) ++
      '\n' :: "</head>".toList = "</head>".toList :=
    List.append_cancel_left (List.append_cancel_right heq)
  have hl := congrArg List.length h2
  rw [List.length_append, List.length_cons] at hl
  omega

set_option maxRecDepth 100000 in
/-- Claim C10: an absent or empty `template` query parameter silently defaults
to `classic`: the template segment of the generated filename is `Classic`, and
the classic snippet is injected before the first `</head>` when the document
has one. -/
theorem spec_c10 (protoStr : List Char → List Char) (tq : Option (List Char))
    (p : Option (List Char)) (u pre post : List Char)
    (hq : tq = none ∨ tq = some [])
    (hfirst : ∀ i < pre.length,
      ((pre ++ "</head>".toList ++ post).drop i).take
        ("</head>".toList).length ≠ "</head>".toList) :
    templateName tq = "classic".toList ∧
    filename p tq u =
      baseName p ++ '_' :: ("Classic".toList ++ '_' ::
        (u.take 8 ++ ".pdf".toList)) ∧
    finalHtml protoStr tq (pre ++ "</head>".toList ++ post) =
      pre ++ (styleTag classicStyle ++ '\n' :: "</head>".toList) ++ post := by
  have hname : templateName tq = "classic".toList := by
    rcases hq with rfl | rfl <;> rfl
  refine ⟨hname, ?_, ?_⟩
  · show baseName p ++ '_' :: (templateSuffix (templateName tq) ++ '_' ::
      (uniqueId u ++ ".pdf".toList)) = _
    rw [hname]
    rfl
  · rw [finalHtml_inject protoStr tq classicStyle (by rw [hname]; rfl)]
    exact replaceFirst_first_occurrence _ _ _ _ (by decide) hfirst

set_option maxRecDepth 100000 in
/-- Witness for C10: absent template parameter, concrete document. -/
theorem spec_c10_witness :
    templateName none = "classic".toList ∧
    filename none none "u".toList =
      baseName none ++ '_' :: ("Classic".toList ++ '_' ::
        ("u".toList.take 8 ++ ".pdf".toList)) ∧
    finalHtml noProto none ("<head>".toList ++ "</head>".toList ++
        "x".toList) =
      "<head>".toList ++ (styleTag classicStyle ++ '\n' ::
        "</head>".toList) ++ "x".toList :=
  spec_c10 noProto none none "u".toList "<head>".toList "x".toList
    (Or.inl rfl) (by decide)

/-- Renderer oracle that always fails, for witnesses. -/
def noRender : List Char → RenderOptions → Option Nat := fun _ _ => none

/-- Renderer oracle that always succeeds with payload `0`, for witnesses. -/
def okRender : List Char → RenderOptions → Option Nat := fun _ _ => some 0

/-- Concrete oracle environment with a failing renderer, for witnesses. -/
def envNoRender : Env Nat := ⟨[], [], noRender, noProto⟩

/-- Concrete oracle environment with a succeeding renderer, for witnesses. -/
def envOk : Env Nat :=
  ⟨"deadbeef-0000".toList, "id123456".toList, okRender, noProto⟩

/-- Claim C4: a request whose `html` body field is absent or empty is rejected
with 400 (`InvalidRequest`); the store is returned unchanged, so no artifact
is created and no identifier is handed out. -/
theorem spec_c4 {α : Type} (env : Env α) (store : Store (Artifact α))
    (req : PrepareRequest) (h : req.html = none ∨ req.html = some []) :
    preparePdf env store req = (.invalidRequest, store) := by
  rcases h with h | h <;> simp [preparePdf, h]

/-- Witness for C4 with an absent `html` field. -/
theorem spec_c4_witness :
    preparePdf envNoRender [] ⟨none, none, none⟩ = (.invalidRequest, []) :=
  spec_c4 envNoRender [] ⟨none, none, none⟩ (Or.inl rfl)

/-- Claim C5: when the external renderer reports an error or exceeds its
timeout (the `err` branch of `toBuffer`), the request fails with 500
(`RenderFailure`) and nothing is stored: the store is returned unchanged, so
in particular no entry exists under the pre-generated identifier that the
handler had already drawn. -/
theorem spec_c5 {α : Type} (env : Env α) (store : Store (Artifact α))
    (req : PrepareRequest) (doc : List Char)
    (hdoc : req.html = some doc) (hne : doc ≠ [])
    (hrender : env.render (finalHtml env.protoStr req.template doc) pdfOptions
      = none) :
    preparePdf env store req = (.renderFailure, store) := by
  simp [preparePdf, hdoc, hne, hrender]

set_option maxRecDepth 100000 in
/-- Witness for C5 with an always-failing renderer. -/
theorem spec_c5_witness :
    preparePdf envNoRender []
      ⟨some "<p>x</p>".toList, none, some "zz".toList⟩ =
      (.renderFailure, []) :=
  spec_c5 envNoRender [] ⟨some "<p>x</p>".toList, none, some "zz".toList⟩
    "<p>x</p>".toList rfl (by decide) rfl

/-- Claim C1: every artifact stored by a successful conversion is retrievable
exactly once: the first `GET /download/:id` returns the stored payload and
the stored filename and removes the entry, and any second request with the
same identifier answers 404 (`NotFound`). -/
theorem spec_c1 {α : Type} (env : Env α) (store : Store (Artifact α))
    (req : PrepareRequest) (id url fn : List Char)
    (st' : Store (Artifact α))
    (h : preparePdf env store req = (.success id url fn, st')) :
    ∃ buf : α,
      mapGet st' id = some ⟨buf, fn⟩ ∧
      download st' id = (.ok buf fn, mapDelete st' id) ∧
      (download (mapDelete st' id) id).1 = .notFound := by
  simp only [preparePdf] at h
  split at h
  · simp at h
  · split at h
    · simp at h
    · split at h
      · simp at h
      · rename_i buf hrender
        rw [Prod.mk.injEq, PrepareResult.success.injEq] at h
        obtain ⟨⟨rfl, rfl, rfl⟩, rfl⟩ := h
        refine ⟨buf, mapGet_mapSet_self _ _ _, ?_, ?_⟩
        · simp [download, mapGet_mapSet_self]
        · simp [download, mapGet_mapDelete_self]

set_option maxRecDepth 100000 in
/-- Witness for C1: a successful conversion followed by two downloads. -/
theorem spec_c1_witness :
    ∃ buf : Nat,
      mapGet [("id123456".toList,
          Artifact.mk (0 : Nat) "CV_Zz_deadbeef.pdf".toList)] "id123456".toList
        = some ⟨buf, "CV_Zz_deadbeef.pdf".toList⟩ ∧
      download [("id123456".toList,
          Artifact.mk (0 : Nat) "CV_Zz_deadbeef.pdf".toList)] "id123456".toList
        = (.ok buf "CV_Zz_deadbeef.pdf".toList,
          mapDelete [("id123456".toList,
            Artifact.mk (0 : Nat) "CV_Zz_deadbeef.pdf".toList)]
            "id123456".toList) ∧
      (download (mapDelete [("id123456".toList,
          Artifact.mk (0 : Nat) "CV_Zz_deadbeef.pdf".toList)]
          "id123456".toList) "id123456".toList).1 = .notFound :=
  spec_c1 envOk [] ⟨some "<p>x</p>".toList, none, some "zz".toList⟩
    "id123456".toList "/download/id123456".toList
    "CV_Zz_deadbeef.pdf".toList
    [("id123456".toList, Artifact.mk (0 : Nat) "CV_Zz_deadbeef.pdf".toList)]
    (by decide)

/-- Retention invariant: starting from a state that holds `id` and whose
pending timers for `id` all carry deadline `dl`, any event trace whose events
all happen strictly before `dl` and which never `take`s or re-`put`s `id`
leaves the entry in place and the timer-deadline invariant intact. -/
theorem retention_aux {α : Type} (id : List Char) (v : α) (dl : Nat)
    (s1 : SState α) (tr : List (Nat × Evt α)) (s2 : SState α)
    (hreach : Reach s1 tr s2) :
    mapGet s1.store id = some v →
    (∀ ft, (id, ft) ∈ s1.timers → ft = dl) →
    (∀ p ∈ tr, p.1 < dl) →
    (∀ t : Nat, (t, Evt.takeE id) ∉ tr) →
    (∀ (t : Nat) (w : α), (t, Evt.putE id w) ∉ tr) →
    mapGet s2.store id = some v ∧
      ∀ ft, (id, ft) ∈ s2.timers → ft = dl := by
  induction hreach with
  | nil s =>
    intro h1 h2 _ _ _
    exact ⟨h1, h2⟩
  | cons e s s' tr' s'' h1 h2 ih =>
    intro hg ht hpre hnt hnp
    have hpre' : ∀ p ∈ tr', p.1 < dl :=
      fun p hp => hpre p (List.mem_cons_of_mem e hp)
    have hnt' : ∀ t : Nat, (t, Evt.takeE id) ∉ tr' :=
      fun t hm => hnt t (List.mem_cons_of_mem e hm)
    have hnp' : ∀ (t : Nat) (w : α), (t, Evt.putE id w) ∉ tr' :=
      fun t w hm => hnp t w (List.mem_cons_of_mem e hm)
    cases h1 with
    | put t id' w s =>
      have hne : id' ≠ id := by
        intro hc
        subst hc
        exact hnp t w (List.mem_cons_self _ _)
      refine ih ?_ ?_ hpre' hnt' hnp'
      · rw [mapGet_mapSet_ne _ _ _ _ hne]
        exact hg
      · intro ft hft
        rcases List.mem_cons.mp hft with hft | hft
        · exact absurd (congrArg Prod.fst hft).symm hne
        · exact ht ft hft
    | takeHit t id' w s hget =>
      have hne : id' ≠ id := by
        intro hc
        subst hc
        exact hnt t (List.mem_cons_self _ _)
      refine ih ?_ ht hpre' hnt' hnp'
      rw [mapGet_mapDelete_ne _ _ _ hne]
      exact hg
    | takeMiss t id' s hget =>
      exact ih hg ht hpre' hnt' hnp'
    | fire t id' ft s hmem hdue =>
      by_cases hne : id' = id
      · subst hne
        have hft : ft = dl := ht ft hmem
        have hlt : t < dl := hpre (t, Evt.fireE id') (List.mem_cons_self _ _)
        omega
      · refine ih ?_ ?_ hpre' hnt' hnp'
        · rw [mapGet_mapDelete_ne _ _ _ hne]
          exact hg
        · intro ft' hft'
          exact ht ft' (List.mem_of_mem_erase hft')

/-- Claim C3: an artifact that is never taken stays in the store throughout
any activity that happens before its deadline; its expiry timer, scheduled by
`put` with deadline `putTime + TTL_MS`, can only fire at or after that
deadline (never earlier than the TTL); once the expiry fires, a lookup of the
identifier misses (so `take` answers `NotFound`); and an expiry firing after a
`take` has already removed the entry leaves the store untouched (no error, no
double removal). -/
theorem spec_c3 {α : Type} (id : List Char) (v : α) (t0 : Nat)
    (s1 : SState α) (tr : List (Nat × Evt α)) (s2 : SState α)
    (hreach : Reach s1 tr s2)
    (hstore : mapGet s1.store id = some v)
    (htimer : ∀ ft, (id, ft) ∈ s1.timers → ft = t0 + TTL_MS)
    (hpre : ∀ p ∈ tr, p.1 < t0 + TTL_MS)
    (hnotake : ∀ t : Nat, (t, Evt.takeE id) ∉ tr)
    (hnoput : ∀ (t : Nat) (w : α), (t, Evt.putE id w) ∉ tr) :
    mapGet s2.store id = some v ∧
    (∀ (t : Nat) (s s' : SState α),
      (∀ ft, (id, ft) ∈ s.timers → ft = t0 + TTL_MS) →
      Step (t, Evt.fireE id) s s' → t0 + TTL_MS ≤ t) ∧
    (∀ (t : Nat) (s s' : SState α),
      Step (t, Evt.fireE id) s s' → mapGet s'.store id = none) ∧
    (∀ (t : Nat) (s s' : SState α), mapGet s.store id = none →
      Step (t, Evt.fireE id) s s' → s'.store = s.store) := by
  refine ⟨(retention_aux id v (t0 + TTL_MS) s1 tr s2 hreach hstore htimer
    hpre hnotake hnoput).1, ?_, ?_, ?_⟩
  · intro t s s' hto hstep
    cases hstep with
    | fire _ _ ft _ hmem hdue => exact (hto ft hmem) ▸ hdue
  · intro t s s' hstep
    cases hstep with
    | fire _ _ ft _ hmem hdue => exact mapGet_mapDelete_self _ _
  · intro t s s' hnone hstep
    cases hstep with
    | fire _ _ ft _ hmem hdue => exact mapDelete_of_mapGet_none _ _ hnone

/-- Witness for C3 at a concrete one-entry state and the empty trace. -/
theorem spec_c3_witness :
    mapGet [("a".toList, (0 : Nat))] "a".toList = some 0 ∧
    (∀ (t : Nat) (s s' : SState Nat),
      (∀ ft, ("a".toList, ft) ∈ s.timers → ft = 0 + TTL_MS) →
      Step (t, Evt.fireE "a".toList) s s' → 0 + TTL_MS ≤ t) ∧
    (∀ (t : Nat) (s s' : SState Nat),
      Step (t, Evt.fireE "a".toList) s s' →
        mapGet s'.store "a".toList = none) ∧
    (∀ (t : Nat) (s s' : SState Nat), mapGet s.store "a".toList = none →
      Step (t, Evt.fireE "a".toList) s s' → s'.store = s.store) :=
  spec_c3 "a".toList 0 0 ⟨[("a".toList, 0)], []⟩ [] ⟨[("a".toList, 0)], []⟩
    (Reach.nil _) (by decide) (by intro ft hft; cases hft)
    (by intro p hp; cases hp) (by intro t hm; cases hm)
    (by intro t w hm; cases hm)
